import Mathlib

/-!
Verification of the TradeArenaAI backend (trading-round simulation engine).

Shallow embedding of the relevant JavaScript sources:
* services/tradingRoundManager.js — round lifecycle, `executeBuyOrder`,
  `executeSellOrder`, `getLeaderboard`;
* services/groqService.js — `validateAndFixSignal`, `getRandomSignal`;
* services/baseTokensService.js — token whitelist, `getBaseTokenPrice`;
* services/redisService.js (in-memory variant) — `zRevRange`;
* routes/game.js — the `/join-round` request validation.

JavaScript numbers are embedded as rationals (`ℚ`); the sources only apply
field arithmetic to them, which the claims also state symbolically.  JSON
values reaching the signal-repair pass are embedded by `JVal` (JSON cannot
carry `NaN`/`Infinity`, so numeric leaves are plain rationals).  Calls to
`Math.random()` are embedded by an explicit natural-number oracle argument
mapped onto exactly the range the source derives from the float draw.
Asynchronous store access is embedded by passing the relevant store
contents as explicit arguments; `throw` is embedded as `Except.error`.
-/

namespace TradeArena

/-- Association-list lookup for string-keyed JS objects / Maps
(`obj[key]`); JS object keys are unique, first match is the match. -/
def alookup {β : Type} (k : String) : List (String × β) → Option β
  | [] => none
  | (a, b) :: rest => if a = k then some b else alookup k rest

/-- `obj[key] = v` on a string-keyed JS object: overwrite the existing
binding, or append a fresh one. -/
def aset {β : Type} (k : String) (v : β) : List (String × β) → List (String × β)
  | [] => [(k, v)]
  | (a, b) :: rest => if a = k then (k, v) :: rest else (a, b) :: aset k v rest

/-- `delete obj[key]`: the key is absent afterwards. -/
def aerase {β : Type} (k : String) (l : List (String × β)) : List (String × β) :=
  l.filter (fun p => p.1 ≠ k)

/-! ## Portfolio engine (tradingRoundManager.js, executeBuyOrder / executeSellOrder) -/

/-- `participant.portfolio.positions[token]` entry:
`{ amount, avgPrice, totalInvested }`. -/
structure Position where
  amount : ℚ
  avgPrice : ℚ
  totalInvested : ℚ
  deriving DecidableEq, Repr

/-- The portfolio slice of a participant record that the two order
functions read and write: `cash`, `positions`, `trades`, `wins`,
`losses`. -/
structure Portfolio where
  cash : ℚ
  positions : List (String × Position)
  trades : ℕ
  wins : ℕ
  losses : ℕ
  deriving DecidableEq, Repr

/-- `round.settings` fields used by `executeBuyOrder`. -/
structure Settings where
  maxPositionSize : ℚ
  tradingFee : ℚ
  deriving DecidableEq, Repr

/-- tradingRoundManager.js `executeBuyOrder(participant, token, price,
confidence, signal)`.  Returns the JS boolean result together with the
(possibly mutated) portfolio. -/
def executeBuyOrder (s : Settings) (pf : Portfolio) (token : String)
    (price confidence : ℚ) : Bool × Portfolio :=
  let maxPositionValue := pf.cash * s.maxPositionSize
  let confidenceMultiplier := min (confidence / 10) 1
  let positionValue := maxPositionValue * confidenceMultiplier
  if positionValue < pf.cash * (5 / 100) then (false, pf)
  else
    let fee := positionValue * s.tradingFee
    let totalCost := positionValue + fee
    if totalCost > pf.cash then (false, pf)
    else
      let amount := positionValue / price
      let position := (alookup token pf.positions).getD ⟨0, 0, 0⟩
      let newAmount := position.amount + amount
      let newInvested := position.totalInvested + positionValue
      (true,
        { pf with
          cash := pf.cash - totalCost
          positions := aset token ⟨newAmount, newInvested / newAmount, newInvested⟩ pf.positions
          trades := pf.trades + 1 })

/-- tradingRoundManager.js `executeSellOrder(participant, token, price,
signal)`. -/
def executeSellOrder (pf : Portfolio) (token : String) (price : ℚ) :
    Bool × Portfolio :=
  match alookup token pf.positions with
  | none => (false, pf)
  | some position =>
    if position.amount ≤ 0 then (false, pf)
    else
      let saleValue := position.amount * price
      let fee := saleValue * (1 / 1000)
      let netProceeds := saleValue - fee
      let pnl := netProceeds - position.totalInvested
      (true,
        { pf with
          cash := pf.cash + netProceeds
          wins := if pnl > 0 then pf.wins + 1 else pf.wins
          losses := if pnl > 0 then pf.losses else pf.losses + 1
          positions := aerase token pf.positions
          trades := pf.trades + 1 })

/-- One trade operation issued by the signal processor: a buy carries the
market price and the signal confidence, a sell only the price. -/
inductive TradeOp
  | buy (token : String) (price confidence : ℚ)
  | sell (token : String) (price : ℚ)
  deriving DecidableEq, Repr

/-- The market price an operation executes at. -/
def TradeOp.price : TradeOp → ℚ
  | .buy _ p _ => p
  | .sell _ p => p

/-- Apply one operation to a portfolio (the boolean result is dropped;
on a `false` result the portfolio is returned unchanged). -/
def applyOp (s : Settings) (pf : Portfolio) : TradeOp → Portfolio
  | .buy t p c => (executeBuyOrder s pf t p c).2
  | .sell t p => (executeSellOrder pf t p).2

/-- Apply a sequence of operations left to right. -/
def applyOps (s : Settings) (pf : Portfolio) (ops : List TradeOp) : Portfolio :=
  ops.foldl (applyOp s) pf

/-! ## Round lifecycle (tradingRoundManager.js, createRound / joinRound /
startRound / endRound)

The round record is reduced to the fields those operations consult:
`status`, `stats.totalParticipants`, `settings.minParticipants`,
`maxParticipants`.  Store round-trips (`redisService.get`/`set`) are
elided: each operation takes the current round value and yields the
stored one.  A thrown `Error` becomes `Except.error` with the source's
message. -/

/-- `round.status`: the comment in `createRound` enumerates
`waiting, active, finished, cancelled`. -/
inductive RStatus
  | waiting
  | active
  | finished
  | cancelled
  deriving DecidableEq, Repr

/-- String interpolation of a status (for the thrown messages). -/
def RStatus.name : RStatus → String
  | .waiting => "waiting"
  | .active => "active"
  | .finished => "finished"
  | .cancelled => "cancelled"

structure Round where
  status : RStatus
  totalParticipants : ℕ
  minParticipants : ℕ
  maxParticipants : ℕ
  deriving DecidableEq, Repr

/-- `createRound(config)`: the freshly stored round has
`status: 'waiting'` and `stats.totalParticipants = 0`. -/
def createRound (minP maxP : ℕ) : Round :=
  { status := .waiting, totalParticipants := 0
    minParticipants := minP, maxParticipants := maxP }

/-- `joinRound(roundId, participantData)` on an existing round.
`alreadyJoined` embeds the `round:{id}:participant:{wallet}` existence
check; the strategy-parse call and participant write are elided (they do
not touch `round.status`). -/
def joinRound (r : Round) (alreadyJoined : Bool) : Except String Round :=
  if r.status ≠ .waiting then
    .error ("Round is " ++ r.status.name ++ ", cannot join")
  else if alreadyJoined then
    .error "Wallet already joined this round"
  else if r.totalParticipants ≥ r.maxParticipants then
    .error "Round is full"
  else
    .ok { r with totalParticipants := r.totalParticipants + 1 }

/-- `startRound(roundId)` on an existing round. -/
def startRound (r : Round) : Except String Round :=
  if r.status ≠ .waiting then
    .error ("Round already " ++ r.status.name)
  else if r.totalParticipants < r.minParticipants then
    .error "Need at least minParticipants participants"
  else
    .ok { r with status := .active }

/-- `endRound(roundId)` on an existing round: clears the interval, then
sets `round.status = 'finished'` — with no check of the current status. -/
def endRound (r : Round) : Except String Round :=
  .ok { r with status := .finished }

/-! ## Join-request validation (routes/game.js POST /join-round, plus the
`joinRound` entry checks of tradingRoundManager.js)

Request body fields are embedded as `Option String`; JS truthiness of
such a field is "present and non-empty". -/

/-- JS truthiness of an optional string request field. -/
def fieldTruthy : Option String → Bool
  | some s => s ≠ ""
  | none => false

/-- The validation pipeline a `/join-round` request passes through before
any round state is consulted: the route's required-field check, the
route's strategy-source check (`!strategy && !strategyId &&
!licenseStrategyId`), then the manager's own
`if (!walletAddress || !strategy) throw` entry check.  Round lookup and
lifecycle checks happen after these and are modelled by `joinRound`
above. -/
def joinRoundRequest (roundId walletAddress strategy strategyId
    licenseStrategyId : Option String) : Except String Unit :=
  if ¬(fieldTruthy roundId ∧ fieldTruthy walletAddress) then
    .error "Round ID and wallet address are required"
  else if ¬(fieldTruthy strategy ∨ fieldTruthy strategyId ∨
      fieldTruthy licenseStrategyId) then
    .error "Must provide either strategy text, strategyId, or licenseStrategyId"
  else if ¬(fieldTruthy walletAddress ∧ fieldTruthy strategy) then
    .error "Wallet address and strategy are required"
  else
    .ok ()

/-! ## Signal schema repair (groqService.js, validateAndFixSignal /
getRandomSignal)

A field of the raw JSON object the LLM returned.  `JSON.parse` output
cannot contain `NaN` or `Infinity`, so a numeric leaf is a plain
rational.  `.obj` stands for any non-primitive leaf (object or array):
truthy, not a number, not a string, and never strictly equal to a
string literal. -/
inductive JVal
  | num (q : ℚ)
  | str (s : String)
  | bool (b : Bool)
  | null
  | missing
  | obj
  deriving DecidableEq, Repr

/-- JS truthiness of a field value (`!v` is its negation).  `0` and the
empty string are falsy; objects and arrays are truthy. -/
def JVal.truthy : JVal → Bool
  | .num q => q ≠ 0
  | .str s => s ≠ ""
  | .bool b => b
  | .null => false
  | .missing => false
  | .obj => true

/-- The fields of the raw signal object that `validateAndFixSignal`
reads. -/
structure RawSignal where
  signal : JVal
  confidence : JVal
  entry_price : JVal
  stop_loss : JVal
  take_profit : JVal
  risk_reward_ratio : JVal
  reason : JVal
  deriving DecidableEq, Repr

/-- The repaired signal: after `validateAndFixSignal` every numeric field
is a plain number and `signal` is a plain string. -/
structure Signal where
  signal : String
  confidence : ℚ
  entry_price : ℚ
  stop_loss : ℚ
  take_profit : ℚ
  risk_reward_ratio : ℚ
  reason : String
  deriving DecidableEq, Repr

/-- The `['BUY', 'SELL', 'HOLD'].includes(signal.signal)` repair block:
strict string equality against the three tags, `'HOLD'` otherwise. -/
def fixAction (v : JVal) : String :=
  match v with
  | .str s => if s = "BUY" ∨ s = "SELL" ∨ s = "HOLD" then s else "HOLD"
  | _ => "HOLD"

/-- `Math.floor(Math.random() * 5) + 4` — an integer in `[4, 8]`,
embedded over the oracle `rnd` as `rnd % 5 + 4`. -/
def fallbackConfidence (rnd : ℕ) : ℚ := ((rnd % 5 : ℕ) : ℚ) + 4

/-- The confidence repair block: keep a number already in `[1, 10]`,
replace anything else by the random fallback. -/
def fixConfidence (v : JVal) (rnd : ℕ) : ℚ :=
  match v with
  | .num c => if c < 1 ∨ c > 10 then fallbackConfidence rnd else c
  | _ => fallbackConfidence rnd

/-- The entry-price repair block: `!entry_price || typeof !== 'number' ||
entry_price <= 0` replaces with the market price (for a number,
falsy-or-nonpositive collapses to `≤ 0`). -/
def fixEntryPrice (v : JVal) (price : ℚ) : ℚ :=
  match v with
  | .num e => if e ≤ 0 then price else e
  | _ => price

/-- The stop-loss repair block; the replacement reads the already
repaired `signal.signal`.  (The source's `else if typeof === 'string'`
arm is dead: the first condition already rejected non-numbers.) -/
def fixStopLoss (v : JVal) (action : String) (price : ℚ) : ℚ :=
  match v with
  | .num x =>
    if x ≤ 0 then
      (if action = "BUY" then price * (95 / 100) else price * (105 / 100))
    else x
  | _ => if action = "BUY" then price * (95 / 100) else price * (105 / 100)

/-- The take-profit repair block (dead string arm as above). -/
def fixTakeProfit (v : JVal) (action : String) (price : ℚ) : ℚ :=
  match v with
  | .num x =>
    if x ≤ 0 then
      (if action = "BUY" then price * (110 / 100) else price * (90 / 100))
    else x
  | _ => if action = "BUY" then price * (110 / 100) else price * (90 / 100)

/-- The risk-reward repair block (dead string arm as above). -/
def fixRiskReward (v : JVal) : ℚ :=
  match v with
  | .num x => if x ≤ 0 then 2 else x
  | _ => 2

/-- The reason repair block. -/
def fixReason (v : JVal) (action : String) : String :=
  match v with
  | .str s => if s = "" then action ++ " signal based on strategy analysis" else s
  | _ => action ++ " signal based on strategy analysis"

/-- groqService.js `validateAndFixSignal(signal, marketData)`.
`p` is `marketData.price` (the source reads `marketData.price || 1`);
`rnd` is the `Math.random()` oracle for the confidence fallback.  The
blocks run in source order — in particular the price-field repairs read
the action repaired by the first block. -/
def validateAndFixSignal (raw : RawSignal) (p : ℚ) (rnd : ℕ) : Signal :=
  let price := if p = 0 then 1 else p
  let action := fixAction raw.signal
  ⟨action,
    fixConfidence raw.confidence rnd,
    fixEntryPrice raw.entry_price price,
    fixStopLoss raw.stop_loss action price,
    fixTakeProfit raw.take_profit action price,
    fixRiskReward raw.risk_reward_ratio,
    fixReason raw.reason action⟩

/-- groqService.js `getRandomSignal(marketData)`: the fallback used when
the LLM response cannot be parsed at all.  `r1`, `r2` are the two
`Math.random()` oracles (`signals[Math.floor(Math.random() * 3)]` and
`Math.floor(Math.random() * 5) + 4`). -/
def getRandomSignal (r1 r2 : ℕ) (p : ℚ) : Signal :=
  let randomSignal := (["BUY", "SELL", "HOLD"].getD (r1 % 3) "HOLD")
  let confidence := ((r2 % 5 : ℕ) : ℚ) + 4
  ⟨randomSignal, confidence,
    p,
    p * (if randomSignal = "BUY" then 95 / 100 else 105 / 100),
    p * (if randomSignal = "BUY" then 110 / 100 else 90 / 100),
    2,
    "Technical analysis suggests " ++ randomSignal ++
      " based on current market conditions"⟩

/-- The Signal invariant claimed by the spec: valid action tag,
confidence in `[1, 10]`, all price-like fields positive. -/
def SignalOK (s : Signal) : Prop :=
  (s.signal = "BUY" ∨ s.signal = "SELL" ∨ s.signal = "HOLD") ∧
    1 ≤ s.confidence ∧ s.confidence ≤ 10 ∧
    0 < s.entry_price ∧ 0 < s.stop_loss ∧ 0 < s.take_profit ∧
    0 < s.risk_reward_ratio

instance (s : Signal) : Decidable (SignalOK s) := by
  unfold SignalOK; infer_instance

/-! ## Price feed (baseTokensService.js) -/

/-- One entry of `getBaseTokensConfig()`. -/
structure TokenInfo where
  address : String
  name : String
  symbol : String
  decimals : ℕ
  coingeckoId : String
  isNative : Bool
  deriving DecidableEq, Repr

/-- `getBaseTokensConfig()`: the supported-token whitelist, keys as
written in the source. -/
def baseTokens : List (String × TokenInfo) :=
  [("ETH", ⟨"0x4200000000000000000000000000000000000006", "Ethereum", "ETH", 18, "ethereum", true⟩),
   ("USDC", ⟨"0x833589fCD6eDb6E08f4c7C32D4f71b54bdA02913", "USD Coin", "USDC", 6, "usd-coin", false⟩),
   ("USDbC", ⟨"0xd9aAEc86B65D86f6A7B5B1b0c42FFA531710b6CA", "USD Base Coin", "USDbC", 6, "bridged-usdc-base", false⟩),
   ("DAI", ⟨"0x50c5725949A6F0c72E6C4a641F24049A917DB0Cb", "Dai Stablecoin", "DAI", 18, "dai", false⟩),
   ("CBETH", ⟨"0x2Ae3F1Ec7F1F5012CFEab0185bfc7aa3cf0DEc22", "Coinbase Wrapped Staked ETH", "cbETH", 18, "coinbase-wrapped-staked-eth", false⟩),
   ("WETH", ⟨"0x4200000000000000000000000000000000000006", "Wrapped Ether", "WETH", 18, "weth", false⟩),
   ("BALD", ⟨"0x27D2DECb4bFC9C76F0309b8E88dec3a601Fe25a8", "Bald", "BALD", 18, "bald-base", false⟩),
   ("TOSHI", ⟨"0xAC1Bd2486aAf3B5C0fc3Fd868558b082a531B2B4", "Toshi", "TOSHI", 18, "toshi-base", false⟩),
   ("DEGEN", ⟨"0x4ed4E862860beD51a9570b96d89aF5E1B0Efefed", "Degen", "DEGEN", 18, "degen-base", false⟩),
   ("BRETT", ⟨"0x532f27101965dd16442E59d40670FaF5eBB142E4", "Brett", "BRETT", 18, "brett", false⟩),
   ("HIGHER", ⟨"0x0578d8A44db98B23BF096A382e016e29a5Ce0ffe", "Higher", "HIGHER", 18, "higher", false⟩),
   ("MOXIE", ⟨"0x8C9037D1Ef5c6D1f6816278C7AAF5491d24CD527", "Moxie", "MOXIE", 18, "moxie", false⟩),
   ("AERO", ⟨"0x940181a94A35A4569E4529A3CDfB74e38FD98631", "Aerodrome Finance", "AERO", 18, "aerodrome-finance", false⟩),
   ("COMP", ⟨"0x9e1028F5F1D5eDE59748FFceE5532509976840E0", "Compound", "COMP", 18, "compound-governance-token", false⟩),
   ("UNI", ⟨"0xc3De830EA07524a0761646a6a4e4be0e114a3C83", "Uniswap", "UNI", 18, "uniswap", false⟩)]

/-- JS `symbol.toUpperCase()` (the source only applies it to ASCII
symbol strings). -/
def jsToUpper (s : String) : String := String.mk (s.data.map Char.toUpper)

/-- `getTokenInfo(symbol)`: `this.baseTokens[symbol.toUpperCase()]`. -/
def getTokenInfo (symbol : String) : Option TokenInfo :=
  alookup (jsToUpper symbol) baseTokens

/-- `isBaseToken(symbol)`. -/
def isBaseToken (symbol : String) : Bool :=
  (getTokenInfo symbol).isSome

/-- The price record the feed returns (the fields the claims are about;
the remaining statistics fields carry no constraints). -/
structure PriceData where
  symbol : String
  price : ℚ
  source : String
  deriving DecidableEq, Repr

/-- The best DEXScreener pair as selected by `getDEXScreenerData` (which
catches its own upstream errors and yields `null` on any failure). -/
structure DexPair where
  priceUsd : ℚ
  deriving DecidableEq, Repr

/-- `getMockPriceData(symbol)`.  `mockRand` is the `Math.random()` draw;
the source perturbs a hard-coded base price by
`(Math.random() - 0.5) * 10` percent, embedded as a rational
`randomChange` supplied by the oracle. -/
def mockPrices : List (String × ℚ) :=
  [("ETH", 324567 / 100), ("USDC", 1), ("TOSHI", 123 / 1000000),
   ("DEGEN", 234 / 10000), ("BRETT", 156 / 1000), ("HIGHER", 87 / 1000),
   ("AERO", 1234 / 1000), ("BALD", 45 / 100000), ("MOXIE", 78 / 1000)]

def getMockPriceData (symbol : String) (randomChange : ℚ) : PriceData :=
  let basePrice := (alookup (jsToUpper symbol) mockPrices).getD 1
  { symbol := jsToUpper symbol
    price := basePrice * (1 + randomChange / 100)
    source := "mock" }

/-- `getBaseTokenPrice(symbol)`.  The unknown-symbol path `throw new
Error(...)` is `Except.error`.  External effects are passed in: `cached`
is the fresh cache entry if one exists, `dex` the (never-throwing)
DEXScreener result, `cg` the CoinGecko call (which rethrows its upstream
error into the surrounding `try`, whose `catch` falls back to mock
data), `mockRand` the mock-price oracle.  Every whitelist entry has a
non-empty `coingeckoId`, so the source's "ultimate fallback" line after
the `coingeckoId` test is kept for faithfulness. -/
def getBaseTokenPrice (symbol : String) (cached : Option PriceData)
    (dex : Option DexPair) (cg : Except String PriceData)
    (mockRand : ℚ) : Except String PriceData :=
  match getTokenInfo symbol with
  | none => .error ("Token " ++ symbol ++ " not found on Base network")
  | some tokenInfo =>
    match cached with
    | some c => .ok c
    | none =>
      match dex with
      | some d =>
        .ok { symbol := jsToUpper symbol, price := d.priceUsd, source := "dexscreener" }
      | none =>
        if tokenInfo.coingeckoId ≠ "" then
          match cg with
          | .ok d => .ok d
          | .error _ => .ok (getMockPriceData symbol mockRand)
        else
          .ok (getMockPriceData symbol mockRand)

/-! ## Leaderboard (redisService.js in-memory zRevRange +
tradingRoundManager.js getLeaderboard) -/

/-- A slot of the interleaved wire format `[member, score, member,
score, …]` returned by `zRevRange`. -/
inductive RVal
  | s (v : String)
  | n (v : ℚ)
  deriving DecidableEq, Repr

/-- Stable insertion into a list sorted by `score` descending: the new
element goes before the first element whose score is not larger.  This
is the stable-sort insertion step. -/
def insertScoreDesc {α : Type} (score : α → ℚ) (x : α) : List α → List α
  | [] => [x]
  | y :: ys =>
    if score x < score y then y :: insertScoreDesc score x ys
    else x :: y :: ys

/-- `entries.sort((a, b) => b.score - a.score)`: JS `Array.sort` is a
stable sort; it is embedded as stable insertion sort by score
descending. -/
def sortScoreDesc {α : Type} (score : α → ℚ) : List α → List α
  | [] => []
  | x :: xs => insertScoreDesc score x (sortScoreDesc score xs)

/-- Interleave member/score pairs into the wire format. -/
def interleave : List (String × ℚ) → List RVal
  | [] => []
  | (m, sc) :: rest => .s m :: .n sc :: interleave rest

/-- In-memory redisService.js `zRevRange(key, start, stop)`: materialize
the sorted-set entries, sort by score descending, `slice(start, stop +
1)`, return the interleaved flat list.  `start`/`stop` are JS numbers;
the only negative value reachable from `getLeaderboard` is `stop = -1`
(when `limit = 0`), for which `slice` yields `[]`, matched by `Int.toNat`
clamping. -/
def zRevRange (entries : List (String × ℚ)) (start stop : ℤ) : List RVal :=
  let sorted := sortScoreDesc (fun e => e.2) entries
  interleave ((sorted.drop start.toNat).take (stop + 1 - start).toNat)

/-- The participant fields `getLeaderboard` copies into an entry. -/
structure Participant where
  username : String
  pnl : ℚ
  pnlPercentage : ℚ
  totalValue : ℚ
  trades : ℕ
  winRate : ℚ
  deriving DecidableEq, Repr

/-- One leaderboard entry as pushed by `getLeaderboard`. -/
structure LBEntry where
  rank : ℕ
  walletAddress : String
  username : String
  pnl : ℚ
  pnlPercentage : ℚ
  totalValue : ℚ
  trades : ℕ
  winRate : ℚ
  deriving DecidableEq, Repr

/-- The `for (let i = 0; i < data.length; i += 2)` loop of
`getLeaderboard`: `i` is the running flat index, the entry rank is
`Math.floor(i / 2) + 1`, the score is taken from the flat list, the
remaining fields from the stored participant; a falsy (empty) address or
a missing participant record is skipped. -/
def buildEntries (ps : List (String × Participant)) :
    List RVal → ℕ → List LBEntry
  | .s addr :: .n sc :: rest, i =>
    (if addr ≠ "" then
      match alookup addr ps with
      | some part =>
        [⟨i / 2 + 1, addr, part.username, part.pnl, sc, part.totalValue,
          part.trades, part.winRate⟩]
      | none => []
    else []) ++ buildEntries ps rest (i + 2)
  | _, _ => []

/-- The `leaderboard.forEach((entry, index) => entry.rank = index + 1)`
pass of the fallback branch. -/
def assignRanks : List LBEntry → ℕ → List LBEntry
  | [], _ => []
  | e :: rest, i => { e with rank := i + 1 } :: assignRanks rest (i + 1)

/-- tradingRoundManager.js `getLeaderboard(roundId, limit)`.
`sortedSet` is the content of `round:{id}:leaderboard`, `memberSet` the
`round:{id}:participants` set (used only by the fallback branch taken
when `zRevRange` yields nothing), `ps` the stored participant records. -/
def getLeaderboard (sortedSet : List (String × ℚ)) (memberSet : List String)
    (ps : List (String × Participant)) (limit : ℕ) : List LBEntry :=
  let data := zRevRange sortedSet 0 ((limit : ℤ) - 1)
  let leaderboard :=
    if data.length > 0 then
      buildEntries ps data 0
    else
      let entries := memberSet.foldr
        (fun addr acc =>
          match alookup addr ps with
          | some part =>
            ⟨0, addr, part.username, part.pnl, part.pnlPercentage,
              part.totalValue, part.trades, part.winRate⟩ :: acc
          | none => acc) []
      assignRanks (sortScoreDesc (fun e => e.pnlPercentage) entries) 0
  leaderboard.take limit

/-! ## Helper lemmas -/

theorem alookup_aset_self {β : Type} (k : String) (v : β)
    (l : List (String × β)) : alookup k (aset k v l) = some v := by
  induction l with
  | nil => simp [aset, alookup]
  | cons hd tl ih =>
    by_cases h : hd.1 = k
    · simp [aset, alookup, h]
    · simpa [aset, alookup, h] using ih

theorem alookup_aerase_self {β : Type} (k : String)
    (l : List (String × β)) : alookup k (aerase k l) = none := by
  induction l with
  | nil => simp [aerase, alookup]
  | cons hd tl ih =>
    by_cases h : hd.1 = k
    · simpa [aerase, alookup, h] using ih
    · simpa [aerase, alookup, h] using ih

/-! ## C1 — executeBuyOrder functional correctness -/

/-- **C1.** For every portfolio with cash `C`, positive price `p`,
confidence `c` and round policy `⟨m, f⟩`, `executeBuyOrder` computes
`positionValue = C · m · min (c/10) 1`; it returns `false` leaving the
portfolio unchanged when `positionValue < 0.05 · C` or when
`positionValue + positionValue · f > C`; otherwise it debits exactly
`positionValue · (1 + f)` from cash, adds `positionValue / p` units to
the position, sets the average entry price to
`(oldInvested + positionValue) / (oldAmount + positionValue / p)`,
increments the trade counter by one, and returns `true`. -/
theorem executeBuyOrder_spec (s : Settings) (pf : Portfolio) (t : String)
    (p c : ℚ) (hp : 0 < p) :
    (pf.cash * s.maxPositionSize * min (c / 10) 1 < pf.cash * (5 / 100) ∨
        pf.cash * s.maxPositionSize * min (c / 10) 1 +
          pf.cash * s.maxPositionSize * min (c / 10) 1 * s.tradingFee >
          pf.cash →
      executeBuyOrder s pf t p c = (false, pf)) ∧
    (¬ pf.cash * s.maxPositionSize * min (c / 10) 1 < pf.cash * (5 / 100) →
      ¬ pf.cash * s.maxPositionSize * min (c / 10) 1 +
          pf.cash * s.maxPositionSize * min (c / 10) 1 * s.tradingFee >
          pf.cash →
      (executeBuyOrder s pf t p c).1 = true ∧
      (executeBuyOrder s pf t p c).2.cash =
        pf.cash - pf.cash * s.maxPositionSize * min (c / 10) 1 *
          (1 + s.tradingFee) ∧
      alookup t (executeBuyOrder s pf t p c).2.positions =
        some ⟨((alookup t pf.positions).getD ⟨0, 0, 0⟩).amount +
            pf.cash * s.maxPositionSize * min (c / 10) 1 / p,
          (((alookup t pf.positions).getD ⟨0, 0, 0⟩).totalInvested +
              pf.cash * s.maxPositionSize * min (c / 10) 1) /
            (((alookup t pf.positions).getD ⟨0, 0, 0⟩).amount +
              pf.cash * s.maxPositionSize * min (c / 10) 1 / p),
          ((alookup t pf.positions).getD ⟨0, 0, 0⟩).totalInvested +
            pf.cash * s.maxPositionSize * min (c / 10) 1⟩ ∧
      (executeBuyOrder s pf t p c).2.trades = pf.trades + 1) := by
  constructor
  · intro h
    simp only [executeBuyOrder]
    split
    · rfl
    · split
      · rfl
      · rename_i h1 h2
        rcases h with h | h
        · exact absurd h h1
        · exact absurd h h2
  · intro h1 h2
    simp only [executeBuyOrder]
    split
    · rename_i hg
      exact absurd hg h1
    · refine ⟨rfl, by ring, ?_, rfl⟩
      simp [alookup_aset_self]

/-- Witness for C1 at the round defaults: cash 10000, m = 0.3,
f = 0.001, confidence 7, price 100. -/
theorem executeBuyOrder_spec_witness :
    (executeBuyOrder ⟨3/10, 1/1000⟩ ⟨10000, [], 0, 0, 0⟩ "ETH" 100 7).1 =
        true ∧
      (executeBuyOrder ⟨3/10, 1/1000⟩ ⟨10000, [], 0, 0, 0⟩ "ETH" 100 7).2.cash =
        10000 - 10000 * (3/10) * min ((7 : ℚ) / 10) 1 * (1 + 1/1000) :=
  ⟨((executeBuyOrder_spec ⟨3/10, 1/1000⟩ ⟨10000, [], 0, 0, 0⟩ "ETH" 100 7
      (by norm_num)).2 (by norm_num [min_def]) (by norm_num [min_def])).1,
   (((executeBuyOrder_spec ⟨3/10, 1/1000⟩ ⟨10000, [], 0, 0, 0⟩ "ETH" 100 7
      (by norm_num)).2 (by norm_num [min_def]) (by norm_num [min_def])).2).1⟩

/-! ## C2 — executeSellOrder functional correctness -/

/-- **C2.** For every portfolio and positive price `p`: if no position
with positive amount is held in the symbol, `executeSellOrder` returns
`false` and changes nothing; otherwise it closes the entire position,
credits `cash + amount · p − 0.001 · (amount · p)`, increments wins
exactly when net proceeds exceed `totalInvested` and losses otherwise,
increments the trade counter, returns `true`, and leaves no entry for
the symbol in the positions map. -/
theorem executeSellOrder_spec (pf : Portfolio) (t : String) (p : ℚ)
    (hp : 0 < p) :
    ((alookup t pf.positions = none ∨
        ∃ pos, alookup t pf.positions = some pos ∧ pos.amount ≤ 0) →
      executeSellOrder pf t p = (false, pf)) ∧
    (∀ pos, alookup t pf.positions = some pos → 0 < pos.amount →
      (executeSellOrder pf t p).1 = true ∧
      (executeSellOrder pf t p).2.cash =
        pf.cash + pos.amount * p - (1 / 1000) * (pos.amount * p) ∧
      (executeSellOrder pf t p).2.wins =
        (if pos.totalInvested <
            pos.amount * p - (1 / 1000) * (pos.amount * p) then
          pf.wins + 1 else pf.wins) ∧
      (executeSellOrder pf t p).2.losses =
        (if pos.totalInvested <
            pos.amount * p - (1 / 1000) * (pos.amount * p) then
          pf.losses else pf.losses + 1) ∧
      (executeSellOrder pf t p).2.trades = pf.trades + 1 ∧
      alookup t (executeSellOrder pf t p).2.positions = none) := by
  constructor
  · intro h
    rcases h with h | ⟨pos, hpos, hle⟩
    · simp only [executeSellOrder, h]
    · simp only [executeSellOrder, hpos]
      rw [if_pos hle]
  · intro pos hpos hamt
    simp only [executeSellOrder, hpos]
    rw [if_neg (not_le.mpr hamt)]
    have hiff : (0 < pos.amount * p - pos.amount * p * (1 / 1000) -
        pos.totalInvested) ↔
        (pos.totalInvested <
          pos.amount * p - 1 / 1000 * (pos.amount * p)) := by
      constructor <;> intro hx <;> nlinarith
    refine ⟨rfl, by ring, ?_, ?_, rfl, alookup_aerase_self t pf.positions⟩
    · simp only [gt_iff_lt]
      by_cases hc : pos.totalInvested <
          pos.amount * p - 1 / 1000 * (pos.amount * p)
      · rw [if_pos (hiff.mpr hc), if_pos hc]
      · rw [if_neg (fun hx => hc (hiff.mp hx)), if_neg hc]
    · simp only [gt_iff_lt]
      by_cases hc : pos.totalInvested <
          pos.amount * p - 1 / 1000 * (pos.amount * p)
      · rw [if_pos (hiff.mpr hc), if_pos hc]
      · rw [if_neg (fun hx => hc (hiff.mp hx)), if_neg hc]

/-- Witness for C2: selling 2 units held at total investment 150, price
100. -/
theorem executeSellOrder_spec_witness :
    (executeSellOrder ⟨500, [("ETH", ⟨2, 75, 150⟩)], 3, 1, 1⟩ "ETH" 100).1 =
        true ∧
      (executeSellOrder ⟨500, [("ETH", ⟨2, 75, 150⟩)], 3, 1, 1⟩ "ETH"
            100).2.cash =
        500 + 2 * 100 - (1 / 1000) * (2 * 100) ∧
      alookup "ETH"
        (executeSellOrder ⟨500, [("ETH", ⟨2, 75, 150⟩)], 3, 1, 1⟩ "ETH"
          100).2.positions = none := by
  have h := (executeSellOrder_spec ⟨500, [("ETH", ⟨2, 75, 150⟩)], 3, 1, 1⟩
    "ETH" 100 (by norm_num)).2 ⟨2, 75, 150⟩ (by simp [alookup]) (by norm_num)
  exact ⟨h.1, h.2.1, h.2.2.2.2.2⟩

/-! ## C5 — cash never goes negative -/

theorem executeBuyOrder_cash_nonneg (s : Settings) (pf : Portfolio)
    (t : String) (p c : ℚ) (h : 0 ≤ pf.cash) :
    0 ≤ (executeBuyOrder s pf t p c).2.cash := by
  simp only [executeBuyOrder]
  split
  · exact h
  · split
    · exact h
    · rename_i h1 h2
      simp only [not_lt] at h2
      simp only [gt_iff_lt, not_lt] at *
      linarith

theorem executeSellOrder_cash_nonneg (pf : Portfolio) (t : String) (p : ℚ)
    (hp : 0 < p) (h : 0 ≤ pf.cash) :
    0 ≤ (executeSellOrder pf t p).2.cash := by
  simp only [executeSellOrder]
  split
  · exact h
  · rename_i pos hpos
    split
    · exact h
    · rename_i hamt
      simp only [not_le] at hamt
      have : 0 < pos.amount * p := mul_pos hamt hp
      simp only
      nlinarith

/-- **C5.** Starting from any portfolio with non-negative cash, after any
sequence of buy and sell operations at positive prices the cash is still
non-negative — on every exit path, whether each operation reported
`true` or `false` (a `false` exit leaves the portfolio unchanged, and
prefixes of `ops` are themselves instances of this statement). -/
theorem cash_nonneg_invariant (s : Settings) (pf : Portfolio)
    (ops : List TradeOp) (h0 : 0 ≤ pf.cash)
    (hpos : ∀ op ∈ ops, 0 < op.price) :
    0 ≤ (applyOps s pf ops).cash := by
  induction ops generalizing pf with
  | nil => simpa [applyOps] using h0
  | cons op rest ih =>
    have hop : 0 < op.price := hpos op (List.mem_cons_self op rest)
    have hrest : ∀ o ∈ rest, 0 < o.price :=
      fun o ho => hpos o (List.mem_cons_of_mem op ho)
    have hstep : 0 ≤ (applyOp s pf op).cash := by
      cases op with
      | buy t p c => exact executeBuyOrder_cash_nonneg s pf t p c h0
      | sell t p => exact executeSellOrder_cash_nonneg pf t p hop h0
    simpa [applyOps, List.foldl_cons] using ih (applyOp s pf op) hstep hrest

/-- Witness for C5: two buys then a sell of an untouched symbol at the
round defaults. -/
theorem cash_nonneg_invariant_witness :
    0 ≤ (applyOps ⟨3/10, 1/1000⟩ ⟨10000, [], 0, 0, 0⟩
      [.buy "ETH" 100 7, .buy "ETH" 100 9, .sell "TOSHI" 2]).cash :=
  cash_nonneg_invariant ⟨3/10, 1/1000⟩ ⟨10000, [], 0, 0, 0⟩
    [.buy "ETH" 100 7, .buy "ETH" 100 9, .sell "TOSHI" 2]
    (by norm_num)
    (by intro op hop; fin_cases hop <;> norm_num [TradeOp.price])

/-! ## C10 — reachability of the insufficient-cash abort in executeBuyOrder -/

/-- **C10, counterexample.** The claim asserts that
`maxPositionSize · (1 + tradingFee) ≤ 1` alone (true here: `(-1)·1 ≤ 1`)
makes the `totalCost > cash` abort unreachable for every `cash ≥ 0` and
every confidence.  With `maxPositionSize = -1`, `tradingFee = 0`,
`cash = 10`, `confidence = -20` the position value is
`10 · (-1) · min(-2, 1) = 20`: the 5 %-minimum check passes
(`¬ 20 < 0.5`) yet `totalCost = 20 > 10`, so the insufficient-cash
branch is taken and the order returns `false`. -/
theorem buy_cash_abort_reachable :
    (-1 : ℚ) * (1 + 0) ≤ 1 ∧
    (0 : ℚ) ≤ (10 : ℚ) ∧
    ¬ ((10 : ℚ) * (-1) * min ((-20 : ℚ) / 10) 1 < 10 * (5 / 100)) ∧
    (10 : ℚ) * (-1) * min ((-20 : ℚ) / 10) 1 +
      10 * (-1) * min ((-20 : ℚ) / 10) 1 * 0 > 10 ∧
    executeBuyOrder ⟨-1, 0⟩ ⟨10, [], 0, 0, 0⟩ "ETH" 1 (-20) =
      (false, ⟨10, [], 0, 0, 0⟩) := by
  refine ⟨by norm_num, by norm_num, by norm_num [min_def], by norm_num [min_def], ?_⟩
  simp only [executeBuyOrder]
  norm_num [min_def, alookup]

/-- **C10, amended.** With the additional (defaults-satisfied) hypothesis
`0 ≤ maxPositionSize`, the claim holds: whenever
`maxPositionSize · (1 + tradingFee) ≤ 1` and `cash ≥ 0`, a `false`
result of `executeBuyOrder` can only come from the 5 %-minimum sizing
check, never from the insufficient-cash check — i.e.
`positionValue + positionValue · tradingFee ≤ cash` holds whenever the
first check passes. -/
theorem buy_cash_abort_unreachable (s : Settings) (pf : Portfolio)
    (t : String) (p c : ℚ) (hcash : 0 ≤ pf.cash)
    (hm : 0 ≤ s.maxPositionSize)
    (hmf : s.maxPositionSize * (1 + s.tradingFee) ≤ 1) :
    (¬ pf.cash * s.maxPositionSize * min (c / 10) 1 < pf.cash * (5 / 100) →
      pf.cash * s.maxPositionSize * min (c / 10) 1 +
        pf.cash * s.maxPositionSize * min (c / 10) 1 * s.tradingFee ≤
        pf.cash) ∧
    ((executeBuyOrder s pf t p c).1 = false →
      pf.cash * s.maxPositionSize * min (c / 10) 1 <
        pf.cash * (5 / 100)) := by
  have key : ¬ pf.cash * s.maxPositionSize * min (c / 10) 1 <
      pf.cash * (5 / 100) →
      pf.cash * s.maxPositionSize * min (c / 10) 1 +
        pf.cash * s.maxPositionSize * min (c / 10) 1 * s.tradingFee ≤
        pf.cash := by
    intro h5
    rw [not_lt] at h5
    set pv := pf.cash * s.maxPositionSize * min (c / 10) 1 with hpv
    have hpvle : pv ≤ pf.cash * s.maxPositionSize := by
      have hcm : 0 ≤ pf.cash * s.maxPositionSize := mul_nonneg hcash hm
      calc pv = pf.cash * s.maxPositionSize * min (c / 10) 1 := hpv
        _ ≤ pf.cash * s.maxPositionSize * 1 :=
          mul_le_mul_of_nonneg_left (min_le_right _ _) hcm
        _ = pf.cash * s.maxPositionSize := mul_one _
    rcases le_or_lt (1 + s.tradingFee) 0 with hf | hf
    · -- a fee rate ≤ −1 makes the total cost non-positive
      have hpv0 : 0 ≤ pv := le_trans (by positivity) h5
      nlinarith
    · have h1 : pv * (1 + s.tradingFee) ≤
          pf.cash * s.maxPositionSize * (1 + s.tradingFee) :=
        mul_le_mul_of_nonneg_right hpvle (le_of_lt hf)
      have h2 : pf.cash * s.maxPositionSize * (1 + s.tradingFee) ≤
          pf.cash := by
        calc pf.cash * s.maxPositionSize * (1 + s.tradingFee)
            = pf.cash * (s.maxPositionSize * (1 + s.tradingFee)) := by ring
          _ ≤ pf.cash * 1 := mul_le_mul_of_nonneg_left hmf hcash
          _ = pf.cash := mul_one _
      nlinarith
  refine ⟨key, ?_⟩
  intro hfalse
  by_contra h5
  have hcost := key h5
  simp only [executeBuyOrder] at hfalse
  rw [if_neg h5] at hfalse
  rw [if_neg (not_lt.mpr hcost)] at hfalse
  simp at hfalse

/-- Witness for C10 (amended) at the round defaults
`maxPositionSize = 0.3`, `tradingFee = 0.001`, cash 10000,
confidence 7. -/
theorem buy_cash_abort_unreachable_witness :
    (¬ (10000 : ℚ) * (3/10) * min ((7 : ℚ) / 10) 1 < 10000 * (5 / 100) →
      (10000 : ℚ) * (3/10) * min ((7 : ℚ) / 10) 1 +
        10000 * (3/10) * min ((7 : ℚ) / 10) 1 * (1/1000) ≤ 10000) ∧
    ((executeBuyOrder ⟨3/10, 1/1000⟩ ⟨10000, [], 0, 0, 0⟩ "ETH" 100 7).1 =
        false →
      (10000 : ℚ) * (3/10) * min ((7 : ℚ) / 10) 1 < 10000 * (5 / 100)) :=
  buy_cash_abort_unreachable ⟨3/10, 1/1000⟩ ⟨10000, [], 0, 0, 0⟩ "ETH" 100 7
    (by norm_num) (by norm_num) (by norm_num)

/-! ## C3 — round lifecycle -/

/-- **C3, counterexample.** The claim says a round becomes `finished`
only from `active`.  But `endRound` never checks the current status: on
a freshly created round — still `waiting`, never started — it succeeds
and stores status `finished`.  (For the same reason a `cancelled` round
would be moved out of its terminal state to `finished`.) -/
theorem endRound_from_waiting :
    (createRound 2 10).status = .waiting ∧
    endRound (createRound 2 10) =
      .ok { createRound 2 10 with status := .finished } ∧
    endRound { createRound 2 10 with status := .cancelled } =
      .ok { createRound 2 10 with status := .finished } := by
  refine ⟨rfl, rfl, rfl⟩

/-- **C3, amended.** Rounds are created `waiting`; `joinRound` succeeds
only while the status is `waiting` and never changes it; `startRound`
moves `waiting` to `active` and fails in any other status; but
`endRound` unconditionally sets the status to `finished`, from any
status whatsoever (including `waiting`, `finished` and `cancelled`), so
`finished` is reachable from every status and `cancelled` is not
terminal under `endRound`.  No operation ever produces `cancelled`. -/
theorem round_lifecycle (minP maxP : ℕ) (r r' : Round) (b : Bool) :
    (createRound minP maxP).status = .waiting ∧
    (joinRound r b = .ok r' → r.status = .waiting ∧ r'.status = .waiting) ∧
    (r.status ≠ .waiting → ∀ e : Round, joinRound r b ≠ .ok e) ∧
    (startRound r = .ok r' → r.status = .waiting ∧ r'.status = .active) ∧
    (r.status ≠ .waiting → ∀ e : Round, startRound r ≠ .ok e) ∧
    (∃ e : Round, endRound r = .ok e ∧ e.status = .finished) := by
  refine ⟨rfl, ?_, ?_, ?_, ?_, ⟨_, rfl, rfl⟩⟩
  · intro h
    simp only [joinRound] at h
    split at h
    · exact absurd h (by simp)
    · split at h
      · exact absurd h (by simp)
      · split at h
        · exact absurd h (by simp)
        · rename_i hst _ _
          simp only [ne_eq, not_not] at hst
          refine ⟨hst, ?_⟩
          simp only [Except.ok.injEq] at h
          rw [← h]
          exact hst
  · intro hst e h
    simp only [joinRound] at h
    rw [if_pos hst] at h
    exact absurd h (by simp)
  · intro h
    simp only [startRound] at h
    split at h
    · exact absurd h (by simp)
    · split at h
      · exact absurd h (by simp)
      · rename_i hst _
        simp only [ne_eq, not_not] at hst
        simp only [Except.ok.injEq] at h
        exact ⟨hst, by rw [← h]⟩
  · intro hst e h
    simp only [startRound] at h
    rw [if_pos hst] at h
    exact absurd h (by simp)

/-- Witness for C3 (amended): a waiting two-slot round, one participant
already in; the join / start hypotheses are discharged by computing the
operations on those concrete rounds. -/
theorem round_lifecycle_witness :
    ((⟨.waiting, 1, 2, 10⟩ : Round).status = .waiting ∧
      (⟨.waiting, 2, 2, 10⟩ : Round).status = .waiting) ∧
    ((⟨.waiting, 2, 2, 10⟩ : Round).status = .waiting ∧
      (⟨.active, 2, 2, 10⟩ : Round).status = .active) ∧
    (∀ e : Round, startRound ⟨.finished, 2, 2, 10⟩ ≠ .ok e) ∧
    (∃ e : Round, endRound ⟨.finished, 2, 2, 10⟩ = .ok e ∧
      e.status = .finished) :=
  ⟨(round_lifecycle 2 10 ⟨.waiting, 1, 2, 10⟩ ⟨.waiting, 2, 2, 10⟩
      false).2.1 rfl,
   (round_lifecycle 2 10 ⟨.waiting, 2, 2, 10⟩ ⟨.active, 2, 2, 10⟩
      false).2.2.2.1 rfl,
   (round_lifecycle 2 10 ⟨.finished, 2, 2, 10⟩ ⟨.finished, 2, 2, 10⟩
      false).2.2.2.2.1 (by decide),
   (round_lifecycle 2 10 ⟨.finished, 2, 2, 10⟩ ⟨.finished, 2, 2, 10⟩
      false).2.2.2.2.2⟩

/-! ## C6 — join-round strategy-source validation -/

/-- **C6, counterexample.** The claim says the join operation validates
that *exactly one* of {inline strategy text, owned strategyId,
licenseStrategyId} is present, and that a request carrying only a
strategyId is accepted.  Neither holds: the route only rejects when all
three are absent, so a request carrying both inline text and a
strategyId sails through validation and is accepted; and a request
carrying only a strategyId passes the route check but is then rejected
by the round manager, whose own entry check demands inline strategy
text (`Wallet address and strategy are required`). -/
theorem joinRoundRequest_not_exactly_one :
    joinRoundRequest (some "r1") (some "0xabc") (some "buy trending tokens")
        (some "7") none = .ok () ∧
    joinRoundRequest (some "r1") (some "0xabc") none (some "7") none =
      .error "Wallet address and strategy are required" := by
  exact ⟨rfl, rfl⟩

/-- **C6, amended.** The join pipeline rejects a request carrying none
of {strategy text, strategyId, licenseStrategyId} with the route's
validation error; any request that does carry inline strategy text is
past both checks regardless of how many of the other two fields it also
carries; and a request without inline strategy text — only a strategyId
and/or a licenseStrategyId — passes the route's check but is rejected by
the round manager's entry check. -/
theorem joinRoundRequest_spec (roundId walletAddress strategy strategyId
    licenseStrategyId : Option String)
    (hr : fieldTruthy roundId = true)
    (hw : fieldTruthy walletAddress = true) :
    (fieldTruthy strategy = false → fieldTruthy strategyId = false →
      fieldTruthy licenseStrategyId = false →
      joinRoundRequest roundId walletAddress strategy strategyId
          licenseStrategyId =
        .error "Must provide either strategy text, strategyId, or licenseStrategyId") ∧
    (fieldTruthy strategy = true →
      joinRoundRequest roundId walletAddress strategy strategyId
          licenseStrategyId = .ok ()) ∧
    (fieldTruthy strategy = false →
      (fieldTruthy strategyId = true ∨ fieldTruthy licenseStrategyId = true) →
      joinRoundRequest roundId walletAddress strategy strategyId
          licenseStrategyId =
        .error "Wallet address and strategy are required") := by
  refine ⟨?_, ?_, ?_⟩
  · intro h1 h2 h3
    simp [joinRoundRequest, hr, hw, h1, h2, h3]
  · intro h1
    simp [joinRoundRequest, hr, hw, h1]
  · intro h1 h2
    rcases h2 with h2 | h2 <;> simp [joinRoundRequest, hr, hw, h1, h2]

/-- Witness for C6 (amended): a well-formed request carrying only inline
strategy text is accepted. -/
theorem joinRoundRequest_spec_witness :
    joinRoundRequest (some "r1") (some "0xabc") (some "buy ETH dips") none
        none = .ok () :=
  (joinRoundRequest_spec (some "r1") (some "0xabc") (some "buy ETH dips")
      none none rfl rfl).2.1 rfl

/-! ## C7 — price feed failure semantics -/

/-- **C7, counterexample.** The claim says `getBaseTokenPrice` never
throws on an unknown symbol and instead returns a `SymbolNotSupported`
result.  The source does the opposite: for a symbol outside the
whitelist it executes `throw new Error(...)` before any fallback logic —
embedded here, the result is `Except.error`, not a normal return,
whatever the upstream sources do. -/
theorem getBaseTokenPrice_throws_on_unknown :
    getBaseTokenPrice "FOO" none none (.error "network down") 0 =
      .error "Token FOO not found on Base network" ∧
    (getBaseTokenPrice "FOO" none (some ⟨5⟩) (.ok ⟨"FOO", 5, "coingecko"⟩)
        0).isOk = false := by
  exact ⟨rfl, rfl⟩

/-- **C7, amended.** For a symbol outside the whitelist the lookup
*throws* an error naming the unsupported token (the caller sees an
exception, not a `SymbolNotSupported` value); the second half of the
claim stands: for every whitelisted symbol the lookup never fails —
every combination of cache state, DEX-aggregator outcome and
generic-endpoint outcome degrades to cached, upstream or mock data. -/
theorem getBaseTokenPrice_degrades (symbol : String)
    (cached : Option PriceData) (dex : Option DexPair)
    (cg : Except String PriceData) (mockRand : ℚ) :
    (isBaseToken symbol = false →
      getBaseTokenPrice symbol cached dex cg mockRand =
        .error ("Token " ++ symbol ++ " not found on Base network")) ∧
    (isBaseToken symbol = true →
      ∃ d : PriceData,
        getBaseTokenPrice symbol cached dex cg mockRand = .ok d) := by
  constructor
  · intro h
    have hn : getTokenInfo symbol = none := by
      simp only [isBaseToken] at h
      exact Option.not_isSome_iff_eq_none.mp (by simp [h])
    simp [getBaseTokenPrice, hn]
  · intro h
    simp only [isBaseToken, Option.isSome_iff_exists] at h
    obtain ⟨info, hinfo⟩ := h
    simp only [getBaseTokenPrice, hinfo]
    cases cached with
    | some c => exact ⟨c, rfl⟩
    | none =>
      cases dex with
      | some d => exact ⟨_, rfl⟩
      | none =>
        by_cases hcg : info.coingeckoId = ""
        · simp only [hcg, ne_eq, not_true_eq_false, if_false]
          exact ⟨_, rfl⟩
        · simp only [ne_eq, hcg, not_false_eq_true, if_true]
          cases cg with
          | ok d => exact ⟨d, rfl⟩
          | error e => exact ⟨_, rfl⟩

/-- Witness for C7 (amended): the unlisted symbol `PEPE` throws; the
listed symbol `TOSHI` still produces data when both upstreams fail. -/
theorem getBaseTokenPrice_degrades_witness :
    getBaseTokenPrice "PEPE" none none (.error "timeout") 0 =
      .error ("Token " ++ "PEPE" ++ " not found on Base network") ∧
    ∃ d : PriceData,
      getBaseTokenPrice "TOSHI" none none (.error "timeout") 0 = .ok d :=
  ⟨(getBaseTokenPrice_degrades "PEPE" none none (.error "timeout") 0).1
      (by decide),
   (getBaseTokenPrice_degrades "TOSHI" none none (.error "timeout") 0).2
      (by decide)⟩

/-! ## C4 / C9 — signal schema repair -/

theorem price_pos (p : ℚ) (hp : 0 < p) :
    (0 : ℚ) < if p = 0 then 1 else p := by
  split_ifs with h
  · norm_num
  · exact hp

theorem fixAction_cases (v : JVal) :
    fixAction v = "BUY" ∨ fixAction v = "SELL" ∨ fixAction v = "HOLD" := by
  cases v with
  | str s =>
    simp only [fixAction]
    split_ifs with h
    · exact h
    · right; right; rfl
  | num q => right; right; rfl
  | bool b => right; right; rfl
  | null => right; right; rfl
  | missing => right; right; rfl
  | obj => right; right; rfl

theorem fallbackConfidence_bounds (rnd : ℕ) :
    1 ≤ fallbackConfidence rnd ∧ fallbackConfidence rnd ≤ 10 := by
  have h4 : rnd % 5 ≤ 4 := Nat.lt_succ_iff.mp (Nat.mod_lt _ (by norm_num))
  have hq : ((rnd % 5 : ℕ) : ℚ) ≤ 4 := by exact_mod_cast h4
  have hq0 : (0 : ℚ) ≤ ((rnd % 5 : ℕ) : ℚ) := Nat.cast_nonneg _
  unfold fallbackConfidence
  constructor <;> linarith

theorem fixConfidence_bounds (v : JVal) (rnd : ℕ) :
    1 ≤ fixConfidence v rnd ∧ fixConfidence v rnd ≤ 10 := by
  cases v with
  | num c =>
    simp only [fixConfidence]
    split_ifs with h
    · exact fallbackConfidence_bounds rnd
    · push_neg at h
      exact ⟨h.1, h.2⟩
  | str s => exact fallbackConfidence_bounds rnd
  | bool b => exact fallbackConfidence_bounds rnd
  | null => exact fallbackConfidence_bounds rnd
  | missing => exact fallbackConfidence_bounds rnd
  | obj => exact fallbackConfidence_bounds rnd

theorem fixEntryPrice_pos (v : JVal) (price : ℚ) (h : 0 < price) :
    0 < fixEntryPrice v price := by
  cases v with
  | num e =>
    simp only [fixEntryPrice]
    split_ifs with he
    · exact h
    · linarith
  | str s => exact h
  | bool b => exact h
  | null => exact h
  | missing => exact h
  | obj => exact h

theorem fixStopLoss_pos (v : JVal) (action : String) (price : ℚ)
    (h : 0 < price) : 0 < fixStopLoss v action price := by
  have hdef : 0 < if action = "BUY" then price * (95 / 100)
      else price * (105 / 100) := by
    split_ifs <;> positivity
  cases v with
  | num x =>
    simp only [fixStopLoss]
    split_ifs with hx h1
    · positivity
    · positivity
    · linarith
  | str s => exact hdef
  | bool b => exact hdef
  | null => exact hdef
  | missing => exact hdef
  | obj => exact hdef

theorem fixTakeProfit_pos (v : JVal) (action : String) (price : ℚ)
    (h : 0 < price) : 0 < fixTakeProfit v action price := by
  have hdef : 0 < if action = "BUY" then price * (110 / 100)
      else price * (90 / 100) := by
    split_ifs <;> positivity
  cases v with
  | num x =>
    simp only [fixTakeProfit]
    split_ifs with hx h1
    · positivity
    · positivity
    · linarith
  | str s => exact hdef
  | bool b => exact hdef
  | null => exact hdef
  | missing => exact hdef
  | obj => exact hdef

theorem fixRiskReward_pos (v : JVal) : 0 < fixRiskReward v := by
  cases v with
  | num x =>
    simp only [fixRiskReward]
    split_ifs with hx
    · norm_num
    · linarith
  | str s => norm_num [fixRiskReward]
  | bool b => norm_num [fixRiskReward]
  | null => norm_num [fixRiskReward]
  | missing => norm_num [fixRiskReward]
  | obj => norm_num [fixRiskReward]

/-- **C4.** For every raw LLM signal object (arbitrary JSON leaves,
including gibberish or missing fields) and every market price `p > 0`,
the repaired signal has an action in {BUY, SELL, HOLD} — defaulting to
HOLD when the raw action is not one of the three strings — a confidence
in `[1, 10]`, and positive `entry_price`, `stop_loss`, `take_profit`
and `risk_reward_ratio`; and the `getRandomSignal` fallback (used when
parsing fails entirely) satisfies the same bounds. -/
theorem signal_repair_ranges (raw : RawSignal) (p : ℚ) (rnd r1 r2 : ℕ)
    (hp : 0 < p) :
    SignalOK (validateAndFixSignal raw p rnd) ∧
    (raw.signal ≠ .str "BUY" → raw.signal ≠ .str "SELL" →
      raw.signal ≠ .str "HOLD" →
      (validateAndFixSignal raw p rnd).signal = "HOLD") ∧
    SignalOK (getRandomSignal r1 r2 p) := by
  have hpp := price_pos p hp
  refine ⟨⟨fixAction_cases raw.signal,
      (fixConfidence_bounds raw.confidence rnd).1,
      (fixConfidence_bounds raw.confidence rnd).2,
      fixEntryPrice_pos _ _ hpp, fixStopLoss_pos _ _ _ hpp,
      fixTakeProfit_pos _ _ _ hpp, fixRiskReward_pos _⟩, ?_, ?_⟩
  · intro h1 h2 h3
    show fixAction raw.signal = "HOLD"
    cases hv : raw.signal with
    | str s =>
      simp only [fixAction]
      rw [if_neg]
      rintro (rfl | rfl | rfl)
      · exact h1 hv
      · exact h2 hv
      · exact h3 hv
    | num q => rfl
    | bool b => rfl
    | null => rfl
    | missing => rfl
    | obj => rfl
  · have hk : r1 % 3 < 3 := Nat.mod_lt _ (by norm_num)
    have hconf := fallbackConfidence_bounds r2
    unfold getRandomSignal SignalOK
    unfold fallbackConfidence at hconf
    interval_cases h : r1 % 3 <;>
      simp only [List.getD, List.getElem?_cons_zero, List.getElem?_cons_succ,
        Option.getD_some] <;>
      refine ⟨by simp, hconf.1, hconf.2, hp, ?_, ?_, by norm_num⟩ <;>
      split_ifs <;> positivity

/-- Witness for C4: a raw object with every field missing, price 2. -/
theorem signal_repair_ranges_witness :
    SignalOK (validateAndFixSignal
        ⟨.missing, .missing, .missing, .missing, .missing, .missing,
          .missing⟩ 2 5) ∧
      SignalOK (getRandomSignal 1 3 2) := by
  have h := signal_repair_ranges
    ⟨.missing, .missing, .missing, .missing, .missing, .missing, .missing⟩
    2 5 1 3 (by norm_num)
  exact ⟨h.1, h.2.2⟩

/-- **C9, counterexample.** The claim says the repaired signal of a BUY
action always satisfies `stop_loss < entry_price < take_profit`.  But
the repair pass keeps any positive numeric fields untouched: a raw
signal `{signal: 'BUY', entry_price: 50, stop_loss: 100, take_profit:
60}` at market price 10 passes through unchanged, with
`stop_loss = 100 ≥ entry_price = 50`. -/
theorem signal_repair_no_ordering :
    (validateAndFixSignal
        ⟨.str "BUY", .num 5, .num 50, .num 100, .num 60, .num 2,
          .str "x"⟩ 10 0).signal = "BUY" ∧
    ¬ ((validateAndFixSignal
        ⟨.str "BUY", .num 5, .num 50, .num 100, .num 60, .num 2,
          .str "x"⟩ 10 0).stop_loss <
      (validateAndFixSignal
        ⟨.str "BUY", .num 5, .num 50, .num 100, .num 60, .num 2,
          .str "x"⟩ 10 0).entry_price) := by
  constructor
  · rfl
  · show ¬ ((100 : ℚ) < 50)
    norm_num

/-- **C9, amended.** The claimed orderings hold for the fields the
repair pass actually synthesizes: whenever the raw signal's
`entry_price`, `stop_loss` and `take_profit` are all absent (so all
three are derived from the positive market price), a BUY signal
satisfies `stop_loss < entry_price < take_profit` and a SELL signal the
inverse `take_profit < entry_price < stop_loss`. -/
theorem signal_repair_ordering (raw : RawSignal) (p : ℚ) (rnd : ℕ)
    (hp : 0 < p) (he : raw.entry_price = .missing)
    (hs : raw.stop_loss = .missing) (ht : raw.take_profit = .missing) :
    ((validateAndFixSignal raw p rnd).signal = "BUY" →
      (validateAndFixSignal raw p rnd).stop_loss <
          (validateAndFixSignal raw p rnd).entry_price ∧
        (validateAndFixSignal raw p rnd).entry_price <
          (validateAndFixSignal raw p rnd).take_profit) ∧
    ((validateAndFixSignal raw p rnd).signal = "SELL" →
      (validateAndFixSignal raw p rnd).take_profit <
          (validateAndFixSignal raw p rnd).entry_price ∧
        (validateAndFixSignal raw p rnd).entry_price <
          (validateAndFixSignal raw p rnd).stop_loss) := by
  have hpp := price_pos p hp
  simp only [validateAndFixSignal, he, hs, ht, fixEntryPrice, fixStopLoss,
    fixTakeProfit]
  constructor
  · intro hb
    rw [hb, if_pos rfl, if_pos rfl]
    set q := if p = 0 then 1 else p
    constructor <;> nlinarith
  · intro hb
    have hne : ("SELL" : String) ≠ "BUY" := by decide
    rw [hb, if_neg hne, if_neg hne]
    set q := if p = 0 then 1 else p
    constructor <;> nlinarith

/-- Witness for C9 (amended): a raw BUY whose price fields are all
missing, market price 4. -/
theorem signal_repair_ordering_witness :
    (validateAndFixSignal
          ⟨.str "BUY", .num 5, .missing, .missing, .missing, .num 2,
            .str "x"⟩ 4 0).stop_loss <
        (validateAndFixSignal
          ⟨.str "BUY", .num 5, .missing, .missing, .missing, .num 2,
            .str "x"⟩ 4 0).entry_price ∧
      (validateAndFixSignal
          ⟨.str "BUY", .num 5, .missing, .missing, .missing, .num 2,
            .str "x"⟩ 4 0).entry_price <
        (validateAndFixSignal
          ⟨.str "BUY", .num 5, .missing, .missing, .missing, .num 2,
            .str "x"⟩ 4 0).take_profit :=
  (signal_repair_ordering
    ⟨.str "BUY", .num 5, .missing, .missing, .missing, .num 2, .str "x"⟩
    4 0 (by norm_num) rfl rfl rfl).1 rfl

/-! ## C8 — leaderboard ordering and ranks -/

theorem interleave_length (l : List (String × ℚ)) :
    (interleave l).length = 2 * l.length := by
  induction l with
  | nil => rfl
  | cons hd tl ih =>
    obtain ⟨m, sc⟩ := hd
    simp only [interleave, List.length_cons, ih]
    omega

theorem mem_insertScoreDesc {α : Type} (score : α → ℚ) (a x : α)
    (l : List α) (h : x ∈ insertScoreDesc score a l) : x = a ∨ x ∈ l := by
  induction l with
  | nil => simpa [insertScoreDesc] using h
  | cons y ys ih =>
    simp only [insertScoreDesc] at h
    split_ifs at h with hc
    · rcases List.mem_cons.mp h with rfl | h
      · right; exact List.mem_cons_self _ _
      · rcases ih h with h | h
        · left; exact h
        · right; exact List.mem_cons_of_mem y h
    · rcases List.mem_cons.mp h with h | h
      · left; exact h
      · right; exact h

theorem pairwise_insertScoreDesc {α : Type} (score : α → ℚ) (a : α)
    (l : List α)
    (h : List.Pairwise (fun x y => score y ≤ score x) l) :
    List.Pairwise (fun x y => score y ≤ score x)
      (insertScoreDesc score a l) := by
  induction l with
  | nil => simp [insertScoreDesc]
  | cons y ys ih =>
    rcases List.pairwise_cons.mp h with ⟨hy, hys⟩
    simp only [insertScoreDesc]
    split_ifs with hc
    · refine List.pairwise_cons.mpr ⟨?_, ih hys⟩
      intro z hz
      rcases mem_insertScoreDesc score a z ys hz with rfl | hz
      · exact le_of_lt hc
      · exact hy z hz
    · refine List.pairwise_cons.mpr ⟨?_, h⟩
      intro z hz
      rcases List.mem_cons.mp hz with rfl | hz
      · exact not_lt.mp hc
      · exact le_trans (hy z hz) (not_lt.mp hc)

theorem pairwise_sortScoreDesc {α : Type} (score : α → ℚ) (l : List α) :
    List.Pairwise (fun x y => score y ≤ score x) (sortScoreDesc score l) := by
  induction l with
  | nil => simp [sortScoreDesc]
  | cons x xs ih => exact pairwise_insertScoreDesc score x _ ih

theorem mem_sortScoreDesc {α : Type} (score : α → ℚ) (x : α) (l : List α)
    (h : x ∈ sortScoreDesc score l) : x ∈ l := by
  induction l with
  | nil => simpa [sortScoreDesc] using h
  | cons y ys ih =>
    simp only [sortScoreDesc] at h
    rcases mem_insertScoreDesc score y x _ h with rfl | h
    · exact List.mem_cons_self _ _
    · exact List.mem_cons_of_mem y (ih h)

theorem length_insertScoreDesc {α : Type} (score : α → ℚ) (a : α)
    (l : List α) : (insertScoreDesc score a l).length = l.length + 1 := by
  induction l with
  | nil => rfl
  | cons y ys ih =>
    simp only [insertScoreDesc]
    split_ifs with hc
    · simp [ih]
    · simp

theorem length_sortScoreDesc {α : Type} (score : α → ℚ) (l : List α) :
    (sortScoreDesc score l).length = l.length := by
  induction l with
  | nil => rfl
  | cons x xs ih =>
    simp only [sortScoreDesc, length_insertScoreDesc, ih, List.length_cons]

/-- Reference form of the successful `getLeaderboard` loop over the pair
list: entry `j` (0-based, started at rank offset `r`) carries rank
`r + j + 1` and the sorted-set score.  (The `none` branch carries junk
display fields: it is only compared with `buildEntries` under the
hypothesis that every member has a stored participant.) -/
def entriesOf (ps : List (String × Participant)) :
    List (String × ℚ) → ℕ → List LBEntry
  | [], _ => []
  | (m, sc) :: rest, r =>
    (match alookup m ps with
     | some part =>
       ⟨r + 1, m, part.username, part.pnl, sc, part.totalValue,
         part.trades, part.winRate⟩
     | none => ⟨r + 1, m, "", 0, sc, 0, 0, 0⟩) :: entriesOf ps rest (r + 1)

theorem buildEntries_eq_entriesOf (ps : List (String × Participant))
    (l : List (String × ℚ)) :
    ∀ r : ℕ, (∀ q ∈ l, q.1 ≠ "" ∧ (alookup q.1 ps).isSome) →
      buildEntries ps (interleave l) (2 * r) = entriesOf ps l r := by
  induction l with
  | nil => intro r _; rfl
  | cons hd tl ih =>
    intro r hmem
    obtain ⟨m, sc⟩ := hd
    obtain ⟨hm, hsome⟩ := hmem (m, sc) (List.mem_cons_self _ _)
    obtain ⟨part, hpart⟩ := Option.isSome_iff_exists.mp hsome
    have htl : ∀ q ∈ tl, q.1 ≠ "" ∧ (alookup q.1 ps).isSome :=
      fun q hq => hmem q (List.mem_cons_of_mem _ hq)
    have hdiv : 2 * r / 2 = r := Nat.mul_div_cancel_left r (by norm_num)
    have hnext : 2 * r + 2 = 2 * (r + 1) := by ring
    simp only [interleave, buildEntries, hpart, hm, if_pos, entriesOf,
      hdiv, hnext, ih (r + 1) htl]
    simp [hm]

theorem entriesOf_length (ps : List (String × Participant))
    (l : List (String × ℚ)) : ∀ r, (entriesOf ps l r).length = l.length := by
  induction l with
  | nil => intro r; rfl
  | cons hd tl ih =>
    intro r
    obtain ⟨m, sc⟩ := hd
    simp only [entriesOf, List.length_cons, ih (r + 1)]

theorem entriesOf_get_rank (ps : List (String × Participant))
    (l : List (String × ℚ)) :
    ∀ (r i : ℕ) (h : i < (entriesOf ps l r).length),
      ((entriesOf ps l r).get ⟨i, h⟩).rank = r + i + 1 := by
  induction l with
  | nil => intro r i h; simp [entriesOf] at h
  | cons hd tl ih =>
    intro r i h
    obtain ⟨m, sc⟩ := hd
    cases i with
    | zero =>
      simp only [entriesOf, List.get]
      cases halp : alookup m ps <;> simp [halp]
    | succ j =>
      have h' : j < (entriesOf ps tl (r + 1)).length := by
        simp only [entriesOf, List.length_cons] at h
        omega
      have := ih (r + 1) j h'
      simp only [entriesOf, List.get] at this ⊢
      rw [this]
      omega

theorem entriesOf_get_score (ps : List (String × Participant))
    (l : List (String × ℚ)) :
    ∀ (r i : ℕ) (h : i < (entriesOf ps l r).length)
      (h' : i < l.length),
      ((entriesOf ps l r).get ⟨i, h⟩).pnlPercentage = (l.get ⟨i, h'⟩).2 := by
  induction l with
  | nil => intro r i h; simp [entriesOf] at h
  | cons hd tl ih =>
    intro r i h h'
    obtain ⟨m, sc⟩ := hd
    cases i with
    | zero =>
      simp only [entriesOf, List.get]
      cases halp : alookup m ps <;> simp [halp]
    | succ j =>
      have hj : j < (entriesOf ps tl (r + 1)).length := by
        simp only [entriesOf, List.length_cons] at h
        omega
      have hj' : j < tl.length := by
        simpa using Nat.lt_of_succ_lt_succ h'
      have := ih (r + 1) j hj hj'
      simp only [entriesOf, List.get] at this ⊢
      exact this

/-- **C8.** For every round whose leaderboard sorted set is non-empty
and whose members (non-empty wallet strings) all have stored participant
records, `getLeaderboard` returns entries ordered by `pnlPercentage`
descending with ranks numbered consecutively `1..N`; and the in-memory
`zRevRange` it reads materializes the sorted-set entries, sorts them by
score descending, slices rank positions `0..limit−1` and returns the
interleaved flat `[member, score, …]` list. -/
theorem getLeaderboard_sorted (sortedSet : List (String × ℚ))
    (memberSet : List String) (ps : List (String × Participant))
    (limit : ℕ) (hlim : 1 ≤ limit) (hne : sortedSet ≠ [])
    (hmem : ∀ q ∈ sortedSet, q.1 ≠ "" ∧ (alookup q.1 ps).isSome) :
    zRevRange sortedSet 0 ((limit : ℤ) - 1) =
      interleave ((sortScoreDesc (fun e => e.2) sortedSet).take limit) ∧
    List.Pairwise (fun a b => b.pnlPercentage ≤ a.pnlPercentage)
      (getLeaderboard sortedSet memberSet ps limit) ∧
    ∀ (i : ℕ) (h : i < (getLeaderboard sortedSet memberSet ps limit).length),
      ((getLeaderboard sortedSet memberSet ps limit).get ⟨i, h⟩).rank =
        i + 1 := by
  set L := (sortScoreDesc (fun e => e.2) sortedSet).take limit with hLdef
  have hzr : zRevRange sortedSet 0 ((limit : ℤ) - 1) = interleave L := by
    unfold zRevRange
    have h2 : ((limit : ℤ) - 1 + 1 - 0).toNat = limit := by
      have he : (limit : ℤ) - 1 + 1 - 0 = (limit : ℤ) := by ring
      rw [he, Int.toNat_natCast]
    rw [h2]
    simp [hLdef]
  have hmemL : ∀ q ∈ L, q.1 ≠ "" ∧ (alookup q.1 ps).isSome := by
    intro q hq
    exact hmem q (mem_sortScoreDesc _ q _ (List.mem_of_mem_take hq))
  have hLlen_le : L.length ≤ limit := List.length_take_le _ _
  have hLpos : 0 < L.length := by
    rw [hLdef, List.length_take, length_sortScoreDesc]
    have := List.length_pos.mpr hne
    omega
  have hbuild : buildEntries ps (interleave L) 0 = entriesOf ps L 0 := by
    have h := buildEntries_eq_entriesOf ps L 0 hmemL
    simpa using h
  have hlb : getLeaderboard sortedSet memberSet ps limit =
      entriesOf ps L 0 := by
    simp only [getLeaderboard, hzr]
    rw [if_pos (by rw [interleave_length]; omega), hbuild]
    exact List.take_of_length_le (by rw [entriesOf_length]; exact hLlen_le)
  refine ⟨hzr, ?_, ?_⟩
  · rw [hlb]
    have hpwL : List.Pairwise (fun (a b : String × ℚ) => b.2 ≤ a.2) L :=
      (pairwise_sortScoreDesc _ sortedSet).sublist (List.take_sublist _ _)
    rw [List.pairwise_iff_get]
    intro i j hij
    have hlen : (entriesOf ps L 0).length = L.length := entriesOf_length ps L 0
    have hiL : (i : ℕ) < L.length := hlen ▸ i.isLt
    have hjL : (j : ℕ) < L.length := hlen ▸ j.isLt
    have hsi := entriesOf_get_score ps L 0 i i.isLt hiL
    have hsj := entriesOf_get_score ps L 0 j j.isLt hjL
    calc ((entriesOf ps L 0).get j).pnlPercentage
        = (L.get ⟨j, hjL⟩).2 := hsj
      _ ≤ (L.get ⟨i, hiL⟩).2 :=
          (List.pairwise_iff_get.mp hpwL) ⟨i, hiL⟩ ⟨j, hjL⟩ hij
      _ = ((entriesOf ps L 0).get i).pnlPercentage := hsi.symm
  · rw [hlb]
    intro i h
    have := entriesOf_get_rank ps L 0 i h
    omega

/-- Witness for C8: two participants with scores 5 and 9, limit 10. -/
theorem getLeaderboard_sorted_witness :
    List.Pairwise (fun a b => b.pnlPercentage ≤ a.pnlPercentage)
      (getLeaderboard [("0xa", 5), ("0xb", 9)] []
        [("0xa", ⟨"A", 0, 5, 0, 0, 0⟩), ("0xb", ⟨"B", 0, 9, 0, 0, 0⟩)]
        10) ∧
    ∀ (i : ℕ)
      (h : i < (getLeaderboard [("0xa", 5), ("0xb", 9)] []
        [("0xa", ⟨"A", 0, 5, 0, 0, 0⟩), ("0xb", ⟨"B", 0, 9, 0, 0, 0⟩)]
        10).length),
      ((getLeaderboard [("0xa", 5), ("0xb", 9)] []
        [("0xa", ⟨"A", 0, 5, 0, 0, 0⟩), ("0xb", ⟨"B", 0, 9, 0, 0, 0⟩)]
        10).get ⟨i, h⟩).rank = i + 1 := by
  have h := getLeaderboard_sorted [("0xa", 5), ("0xb", 9)] []
    [("0xa", ⟨"A", 0, 5, 0, 0, 0⟩), ("0xb", ⟨"B", 0, 9, 0, 0, 0⟩)]
    10 (by norm_num) (by simp) (by decide)
  exact ⟨h.2.1, h.2.2⟩

end TradeArena
